import Mathlib

/-!
The pass `SingleRadixSortPass`.

A shallow embedding of `singleradixsort/include/SingleRadixSortPass.h`: the compute pass
that loads the shader `single_radixsort.comp` and records its execution followed by a
memory barrier into a Vulkan command buffer.

Recording is modelled by explicit state passing: a `VulkanState` holds, for every command
buffer handle, the commands recorded so far, and separately the host-side calls
(submissions, fence operations, waits) made so far.
-/

namespace engine

/-! ## Vulkan types and constants (vulkan_core.h) -/

/-- Handle of a command buffer. -/
abbrev VkCommandBuffer := Nat

/-- Bit mask type of the Vulkan API (`VkFlags`, 32 bits wide). -/
abbrev VkFlags := Nat

/-- Address of the GPU context object a pass is built on. -/
abbrev GPUContext := Nat

def VK_STRUCTURE_TYPE_MEMORY_BARRIER : Nat := 46

def VK_ACCESS_SHADER_READ_BIT : VkFlags := 0x00000020
def VK_ACCESS_SHADER_WRITE_BIT : VkFlags := 0x00000040
def VK_ACCESS_TRANSFER_READ_BIT : VkFlags := 0x00000800
def VK_ACCESS_HOST_READ_BIT : VkFlags := 0x00002000
def VK_ACCESS_MEMORY_READ_BIT : VkFlags := 0x00008000

def VK_PIPELINE_STAGE_DRAW_INDIRECT_BIT : VkFlags := 0x00000002
def VK_PIPELINE_STAGE_VERTEX_INPUT_BIT : VkFlags := 0x00000004
def VK_PIPELINE_STAGE_VERTEX_SHADER_BIT : VkFlags := 0x00000008
def VK_PIPELINE_STAGE_TESSELLATION_CONTROL_SHADER_BIT : VkFlags := 0x00000010
def VK_PIPELINE_STAGE_TESSELLATION_EVALUATION_SHADER_BIT : VkFlags := 0x00000020
def VK_PIPELINE_STAGE_GEOMETRY_SHADER_BIT : VkFlags := 0x00000040
def VK_PIPELINE_STAGE_FRAGMENT_SHADER_BIT : VkFlags := 0x00000080
def VK_PIPELINE_STAGE_COMPUTE_SHADER_BIT : VkFlags := 0x00000800
def VK_PIPELINE_STAGE_TRANSFER_BIT : VkFlags := 0x00001000
def VK_PIPELINE_STAGE_HOST_BIT : VkFlags := 0x00004000
def VK_PIPELINE_STAGE_ALL_GRAPHICS_BIT : VkFlags := 0x00008000
def VK_PIPELINE_STAGE_ALL_COMMANDS_BIT : VkFlags := 0x00010000

/-- Global memory barrier; `pNext` is the address of an extension structure (0 is null). -/
structure VkMemoryBarrier where
  sType : Nat
  pNext : Nat
  srcAccessMask : VkFlags
  dstAccessMask : VkFlags
deriving DecidableEq

/-- Memory barrier restricted to a range of one buffer. -/
structure VkBufferMemoryBarrier where
  srcAccessMask : VkFlags
  dstAccessMask : VkFlags
  buffer : Nat
  offset : Nat
  size : Nat
deriving DecidableEq

/-- Memory barrier restricted to one image, with its layout transition. -/
structure VkImageMemoryBarrier where
  srcAccessMask : VkFlags
  dstAccessMask : VkFlags
  oldLayout : Nat
  newLayout : Nat
  image : Nat
deriving DecidableEq

/-- Commands a command buffer can hold, as far as this development distinguishes them.
`computeShaderExecution i` is what `ComputePass::recordCommandComputeShaderExecution`
records for the shader with index `i`. A (count, pointer) pair of the C API is a list. -/
inductive Command where
  | computeShaderExecution (shaderIndex : Nat)
  | pipelineBarrier (srcStageMask dstStageMask dependencyFlags : VkFlags)
      (memoryBarriers : List VkMemoryBarrier)
      (bufferMemoryBarriers : List VkBufferMemoryBarrier)
      (imageMemoryBarriers : List VkImageMemoryBarrier)
  | setEvent (event : Nat) (stageMask : VkFlags)
  | resetEvent (event : Nat) (stageMask : VkFlags)
  | waitEvents (events : List Nat) (srcStageMask dstStageMask : VkFlags)
      (memoryBarriers : List VkMemoryBarrier)
  | copyBuffer (srcBuffer dstBuffer size : Nat)
deriving DecidableEq

/-- Host-side calls that submit work or synchronise the host with the device. -/
inductive HostCall where
  | queueSubmit (commandBuffers : List VkCommandBuffer) (fence : Nat)
  | waitForFences (fences : List Nat)
  | resetFences (fences : List Nat)
  | queueWaitIdle
  | deviceWaitIdle
deriving DecidableEq

/-- What has been recorded into each command buffer, and the host calls made so far. -/
structure VulkanState where
  recorded : VkCommandBuffer → List Command
  hostCalls : List HostCall

/-- The state in which nothing has been recorded and no host call has been made. -/
def VulkanState.initial : VulkanState := ⟨fun _ => [], []⟩

/-- Append one command to the given command buffer. -/
def VulkanState.record (s : VulkanState) (commandBuffer : VkCommandBuffer) (c : Command) :
    VulkanState :=
  ⟨fun cb => if cb = commandBuffer then s.recorded cb ++ [c] else s.recorded cb, s.hostCalls⟩

/-- The Vulkan entry point `vkCmdPipelineBarrier`: records one pipeline barrier command. -/
def vkCmdPipelineBarrier (commandBuffer : VkCommandBuffer)
    (srcStageMask dstStageMask dependencyFlags : VkFlags)
    (memoryBarriers : List VkMemoryBarrier)
    (bufferMemoryBarriers : List VkBufferMemoryBarrier)
    (imageMemoryBarriers : List VkImageMemoryBarrier) (s : VulkanState) : VulkanState :=
  s.record commandBuffer
    (Command.pipelineBarrier srcStageMask dstStageMask dependencyFlags
      memoryBarriers bufferMemoryBarriers imageMemoryBarriers)

/-! ## The pass -/

/-- Arguments the `Shader` constructor is called with. -/
structure Shader where
  gpuContext : GPUContext
  directory : String
  fileName : String
deriving DecidableEq

/-- The pass object; its only data member is the GPU context of the base class. -/
structure SingleRadixSortPass where
  m_gpuContext : GPUContext
deriving DecidableEq

/-- The enumeration `SingleRadixSortPass::ComputeStage`. -/
inductive ComputeStage where
  | RADIX_SORT
deriving DecidableEq

/-- Enumerator values: `RADIX_SORT = 0`. -/
def ComputeStage.toNat : ComputeStage → Nat
  | ComputeStage.RADIX_SORT => 0

/-- Modelled from the spec: `ComputePass::recordCommandComputeShaderExecution`, whose
header engine/passes/ComputePass.h is not among the sources. Following the command
sequence contract, it records the dispatch of the shader with the given index into the
command buffer it is passed and does nothing else. -/
def ComputePass.recordCommandComputeShaderExecution (commandBuffer : VkCommandBuffer)
    (shaderIndex : Nat) (s : VulkanState) : VulkanState :=
  s.record commandBuffer (Command.computeShaderExecution shaderIndex)

/-- The member function `SingleRadixSortPass::createShaders`; the static
`Paths::m_resourceDirectoryPath` it reads is the second argument. -/
def SingleRadixSortPass.createShaders (self : SingleRadixSortPass)
    (m_resourceDirectoryPath : String) : List Shader :=
  [Shader.mk self.m_gpuContext (m_resourceDirectoryPath ++ "/shaders") "single_radixsort.comp"]

/-- The member function `SingleRadixSortPass::recordCommands`. The designated initialiser
of `memoryBarrier0` leaves `pNext` null. -/
def SingleRadixSortPass.recordCommands (_self : SingleRadixSortPass)
    (commandBuffer : VkCommandBuffer) (s : VulkanState) : VulkanState :=
  let s1 := ComputePass.recordCommandComputeShaderExecution commandBuffer
    ComputeStage.RADIX_SORT.toNat s
  let memoryBarrier0 : VkMemoryBarrier :=
    VkMemoryBarrier.mk VK_STRUCTURE_TYPE_MEMORY_BARRIER 0
      VK_ACCESS_SHADER_WRITE_BIT VK_ACCESS_SHADER_READ_BIT
  vkCmdPipelineBarrier commandBuffer VK_PIPELINE_STAGE_COMPUTE_SHADER_BIT
    VK_PIPELINE_STAGE_COMPUTE_SHADER_BIT 0 [memoryBarrier0] [] [] s1

/-! ## Observations on recorded command sequences -/

/-- The commands one call of `recordCommands` adds to the command buffer it is given. -/
def recordedBy (self : SingleRadixSortPass) (commandBuffer : VkCommandBuffer)
    (s : VulkanState) : List Command :=
  ((self.recordCommands commandBuffer s).recorded commandBuffer).drop
    (s.recorded commandBuffer).length

/-- A command that dispatches compute work. -/
def Command.isDispatch : Command → Bool
  | Command.computeShaderExecution _ => true
  | _ => false

/-- A pipeline barrier command. -/
def Command.isPipelineBarrier : Command → Bool
  | Command.pipelineBarrier _ _ _ _ _ _ => true
  | _ => false

/-- All bits of `bits` are set in `mask`. -/
def hasBits (mask bits : VkFlags) : Bool := mask &&& bits == bits

/-- A pipeline barrier carrying a global memory barrier from shader writes to shader
reads. -/
def Command.isWriteReadBarrier : Command → Bool
  | Command.pipelineBarrier _ _ _ memoryBarriers _ _ =>
      memoryBarriers.any fun m =>
        hasBits m.srcAccessMask VK_ACCESS_SHADER_WRITE_BIT &&
          hasBits m.dstAccessMask VK_ACCESS_SHADER_READ_BIT
  | _ => false

/-- The shader indices of the dispatches of a command sequence, in order. -/
def dispatchedStages (cmds : List Command) : List Nat :=
  cmds.filterMap fun c =>
    match c with
    | Command.computeShaderExecution i => some i
    | _ => none

/-- Position `i` of the sequence holds a dispatch. -/
def dispatchAt (cmds : List Command) (i : Nat) : Bool :=
  match cmds[i]? with
  | some c => c.isDispatch
  | none => false

/-- Position `k` of the sequence holds a shader-write to shader-read barrier. -/
def writeReadBarrierAt (cmds : List Command) (k : Nat) : Bool :=
  match cmds[k]? with
  | some c => c.isWriteReadBarrier
  | none => false

/-- Between any two dispatches of the sequence lies a shader-write to shader-read
barrier. -/
def BarriersSeparateDispatches (cmds : List Command) : Prop :=
  ∀ j, j < cmds.length → ∀ i, i < j →
    (dispatchAt cmds i = true ∧ dispatchAt cmds j = true →
      ∃ k, k < j ∧ i < k ∧ writeReadBarrierAt cmds k = true)

/-- Every dispatch of the sequence is followed, later in the sequence, by a shader-write
to shader-read barrier. -/
def DispatchesFlushed (cmds : List Command) : Prop :=
  ∀ i, i < cmds.length → (dispatchAt cmds i = true →
    ∃ k, k < cmds.length ∧ i < k ∧ writeReadBarrierAt cmds k = true)

instance (cmds : List Command) : Decidable (BarriersSeparateDispatches cmds) := by
  unfold BarriersSeparateDispatches; infer_instance

instance (cmds : List Command) : Decidable (DispatchesFlushed cmds) := by
  unfold DispatchesFlushed; infer_instance

/-- The pipeline stage and the access type with which a recorded command reads buffer
memory: a dispatch reads through shaders in the compute-shader stage, a buffer copy
reads in the transfer stage; barriers and event commands read none. -/
def Command.readScope : Command → Option (VkFlags × VkFlags)
  | Command.computeShaderExecution _ =>
      some (VK_PIPELINE_STAGE_COMPUTE_SHADER_BIT, VK_ACCESS_SHADER_READ_BIT)
  | Command.copyBuffer _ _ _ =>
      some (VK_PIPELINE_STAGE_TRANSFER_BIT, VK_ACCESS_TRANSFER_READ_BIT)
  | _ => none

/-- A pipeline barrier makes the shader writes of earlier compute work visible to the
reads of a command recorded after it: its source scope holds the compute-shader stage
and shader-write access, and its destination scope holds the stage and access type the
later command reads with (directly, or through the all-commands stage bit and the
memory-read access bit). A later command that reads no buffer memory needs nothing. -/
def Command.makesWritesVisibleTo (barrier later : Command) : Bool :=
  match barrier, later.readScope with
  | Command.pipelineBarrier srcStageMask dstStageMask _ memoryBarriers _ _,
      some (stage, access) =>
      hasBits srcStageMask VK_PIPELINE_STAGE_COMPUTE_SHADER_BIT &&
        (hasBits dstStageMask stage ||
          hasBits dstStageMask VK_PIPELINE_STAGE_ALL_COMMANDS_BIT) &&
        memoryBarriers.any fun m =>
          hasBits m.srcAccessMask VK_ACCESS_SHADER_WRITE_BIT &&
            (hasBits m.dstAccessMask access ||
              hasBits m.dstAccessMask VK_ACCESS_MEMORY_READ_BIT)
  | Command.pipelineBarrier _ _ _ _ _ _, none => true
  | _, _ => false

/-- The destination stage mask and destination access mask of the last command of a
sequence, when that command is a pipeline barrier with exactly one memory barrier. -/
def finalBarrierDst (cmds : List Command) : Option (VkFlags × VkFlags) :=
  match cmds.getLast? with
  | some (Command.pipelineBarrier _ dstStageMask _ [m] _ _) =>
      some (dstStageMask, m.dstAccessMask)
  | _ => none

/-- Stage bits in which rendering work executes. -/
def renderingStageBits : VkFlags :=
  VK_PIPELINE_STAGE_DRAW_INDIRECT_BIT ||| VK_PIPELINE_STAGE_VERTEX_INPUT_BIT |||
  VK_PIPELINE_STAGE_VERTEX_SHADER_BIT ||| VK_PIPELINE_STAGE_TESSELLATION_CONTROL_SHADER_BIT |||
  VK_PIPELINE_STAGE_TESSELLATION_EVALUATION_SHADER_BIT |||
  VK_PIPELINE_STAGE_GEOMETRY_SHADER_BIT ||| VK_PIPELINE_STAGE_FRAGMENT_SHADER_BIT |||
  VK_PIPELINE_STAGE_ALL_GRAPHICS_BIT ||| VK_PIPELINE_STAGE_ALL_COMMANDS_BIT

/-- A destination scope reaches shader reads of later compute work. -/
def coversCompute (dstStageMask dstAccessMask : VkFlags) : Bool :=
  dstStageMask &&&
      (VK_PIPELINE_STAGE_COMPUTE_SHADER_BIT ||| VK_PIPELINE_STAGE_ALL_COMMANDS_BIT) != 0
    && dstAccessMask &&& (VK_ACCESS_SHADER_READ_BIT ||| VK_ACCESS_MEMORY_READ_BIT) != 0

/-- A destination scope reaches some stage in which rendering work executes. -/
def coversRendering (dstStageMask : VkFlags) : Bool :=
  dstStageMask &&& renderingStageBits != 0

/-- A destination scope reaches reads by the host. -/
def coversHostReadback (dstStageMask dstAccessMask : VkFlags) : Bool :=
  dstStageMask &&& VK_PIPELINE_STAGE_HOST_BIT != 0
    && dstAccessMask &&& (VK_ACCESS_HOST_READ_BIT ||| VK_ACCESS_MEMORY_READ_BIT) != 0

/-! ## The sorting kernel

The shader `single_radixsort.comp` that `createShaders` loads is not among the sources.
The definitions below follow the description of the kernel phases: digit extraction,
per-workgroup histogram, exclusive prefix scan in bucket-major order, and scatter. Lanes
and workgroups run in parallel on the device; here elements are processed in index order,
which gives the same result whenever no two elements are written to the same position.
Keys and counters are natural numbers: no counter exceeds the number of elements, so this
agrees with counters of a fixed width as long as that number is representable. -/

/-- Modelled from the spec: the pass configuration of the sorting kernel, whose shader
source is missing: digit bit-offset, digit bit-width `d` and workgroup count `G`. -/
structure PassConfiguration where
  bitOffset : Nat
  digitWidth : Nat
  workgroupCount : Nat
deriving DecidableEq

/-- Modelled from the spec: the number of digit buckets of the missing kernel,
`B = 2^d`. -/
def PassConfiguration.bucketCount (cfg : PassConfiguration) : Nat := 2 ^ cfg.digitWidth

/-- Modelled from the spec: digit extraction of the missing kernel, a fixed bit-shift
and mask of the key. -/
def digit (cfg : PassConfiguration) (key : Nat) : Nat :=
  (key >>> cfg.bitOffset) &&& (2 ^ cfg.digitWidth - 1)

/-- Modelled from the spec: the size `⌈N/G⌉` of the contiguous groups the missing kernel
partitions `n` elements into. -/
def groupSize (cfg : PassConfiguration) (n : Nat) : Nat :=
  (n + cfg.workgroupCount - 1) / cfg.workgroupCount

/-- Modelled from the spec: the workgroup of the missing kernel that processes
element `i` of `n`. -/
def workgroupOf (cfg : PassConfiguration) (n i : Nat) : Nat := i / groupSize cfg n

/-- Modelled from the spec: the histogram kernel, missing from the sources. The counter
of cell (workgroup `g`, digit `b`) is the number of elements of workgroup `g` whose
digit is `b`. -/
def histogram (cfg : PassConfiguration) (input : List Nat) (g b : Nat) : Nat :=
  (List.range input.length).countP fun i =>
    workgroupOf cfg input.length i == g && digit cfg (input.getD i 0) == b

/-- Modelled from the spec: the histogram table of the missing kernel, flattened in
bucket-major order: cell (digit `b`, workgroup `g`) is at index `b * G + g`. -/
def histogramTable (cfg : PassConfiguration) (input : List Nat) : List Nat :=
  (List.range (cfg.bucketCount * cfg.workgroupCount)).map fun c =>
    histogram cfg input (c % cfg.workgroupCount) (c / cfg.workgroupCount)

/-- Modelled from the spec: the flat exclusive prefix sum of the missing scan kernel,
started at `acc`: every cell receives the sum of the cells before it. -/
def exclusiveScanFrom (acc : Nat) : List Nat → List Nat
  | [] => []
  | x :: xs => acc :: exclusiveScanFrom (acc + x) xs

/-- Modelled from the spec: the scanned-offset table the missing scan kernel leaves in
place of the histogram table. -/
def scannedOffsetTable (cfg : PassConfiguration) (input : List Nat) : List Nat :=
  exclusiveScanFrom 0 (histogramTable cfg input)

/-- Modelled from the spec: the local rank the missing scatter kernel computes for
element `i`: the number of elements of its workgroup with the same digit that come
before it. -/
def localRank (cfg : PassConfiguration) (input : List Nat) (i : Nat) : Nat :=
  (List.range i).countP fun j =>
    workgroupOf cfg input.length j == workgroupOf cfg input.length i &&
      digit cfg (input.getD j 0) == digit cfg (input.getD i 0)

/-- Modelled from the spec: the index the missing scatter kernel writes element `i` to:
the scanned offset of (its digit, its workgroup) plus its local rank. -/
def destination (cfg : PassConfiguration) (input : List Nat) (i : Nat) : Nat :=
  (scannedOffsetTable cfg input).getD
      (digit cfg (input.getD i 0) * cfg.workgroupCount + workgroupOf cfg input.length i) 0
    + localRank cfg input i

/-- Modelled from the spec: the scatter kernel, missing from the sources. Every element
of `input` is written to its destination in `output`, whose previous contents are
whatever the buffer held. -/
def scatter (cfg : PassConfiguration) (input output : List Nat) : List Nat :=
  (List.range input.length).foldl
    (fun out i => out.set (destination cfg input i) (input.getD i 0)) output

/-- The positions whose element a stable sort by `d` places before element `i`: those
of a smaller digit, and those of the same digit at a smaller position. -/
def before (n : Nat) (d : Nat → Nat) (i : Nat) : Finset Nat :=
  (Finset.range n).filter fun k => d k < d i ∨ (d k = d i ∧ k < i)

/-! ## Theorems about the pass -/

/-- The command buffer given to `recordCommands` is extended by the dispatch of stage 0
and one pipeline barrier. -/
theorem recorded_recordCommands (self : SingleRadixSortPass) (cb : VkCommandBuffer)
    (s : VulkanState) :
    (self.recordCommands cb s).recorded cb = s.recorded cb ++
      [Command.computeShaderExecution 0,
       Command.pipelineBarrier VK_PIPELINE_STAGE_COMPUTE_SHADER_BIT
         VK_PIPELINE_STAGE_COMPUTE_SHADER_BIT 0
         [VkMemoryBarrier.mk VK_STRUCTURE_TYPE_MEMORY_BARRIER 0 VK_ACCESS_SHADER_WRITE_BIT
           VK_ACCESS_SHADER_READ_BIT] [] []] := by
  simp [SingleRadixSortPass.recordCommands, vkCmdPipelineBarrier,
    ComputePass.recordCommandComputeShaderExecution, VulkanState.record, ComputeStage.toNat]

/-- The commands added by one call. -/
theorem recordedBy_eq (self : SingleRadixSortPass) (cb : VkCommandBuffer) (s : VulkanState) :
    recordedBy self cb s =
      [Command.computeShaderExecution 0,
       Command.pipelineBarrier VK_PIPELINE_STAGE_COMPUTE_SHADER_BIT
         VK_PIPELINE_STAGE_COMPUTE_SHADER_BIT 0
         [VkMemoryBarrier.mk VK_STRUCTURE_TYPE_MEMORY_BARRIER 0 VK_ACCESS_SHADER_WRITE_BIT
           VK_ACCESS_SHADER_READ_BIT] [] []] := by
  simp [recordedBy, recorded_recordCommands]


theorem recorded_recordCommands_of_ne (self : SingleRadixSortPass) (cb other : VkCommandBuffer)
    (s : VulkanState) (h : other ≠ cb) :
    (self.recordCommands cb s).recorded other = s.recorded other := by
  simp [SingleRadixSortPass.recordCommands, vkCmdPipelineBarrier,
    ComputePass.recordCommandComputeShaderExecution, VulkanState.record, h]

theorem hostCalls_recordCommands (self : SingleRadixSortPass) (cb : VkCommandBuffer)
    (s : VulkanState) : (self.recordCommands cb s).hostCalls = s.hostCalls := rfl

theorem recorded_recordCommands_eq_append (self : SingleRadixSortPass) (cb : VkCommandBuffer)
    (s : VulkanState) :
    (self.recordCommands cb s).recorded cb = s.recorded cb ++ recordedBy self cb s := by
  rw [recordedBy_eq, recorded_recordCommands]

theorem dispatchAt_append_left (l r : List Command) (i : Nat) (h : i < l.length) :
    dispatchAt (l ++ r) i = dispatchAt l i := by
  simp [dispatchAt, List.getElem?_append_left h]

theorem dispatchAt_append_right (l r : List Command) (t : Nat) :
    dispatchAt (l ++ r) (l.length + t) = dispatchAt r t := by
  simp [dispatchAt, List.getElem?_append_right]

theorem writeReadBarrierAt_append_left (l r : List Command) (i : Nat) (h : i < l.length) :
    writeReadBarrierAt (l ++ r) i = writeReadBarrierAt l i := by
  simp [writeReadBarrierAt, List.getElem?_append_left h]

theorem writeReadBarrierAt_append_right (l r : List Command) (t : Nat) :
    writeReadBarrierAt (l ++ r) (l.length + t) = writeReadBarrierAt r t := by
  simp [writeReadBarrierAt, List.getElem?_append_right]

/-- Appending one command and then a write-read barrier to a sequence that keeps its
dispatches apart and flushed gives a sequence that does so too. -/
theorem barriers_append_command_barrier (old : List Command) (d b : Command)
    (hbd : b.isDispatch = false) (hb : b.isWriteReadBarrier = true)
    (hsep : BarriersSeparateDispatches old) (hfl : DispatchesFlushed old) :
    BarriersSeparateDispatches (old ++ [d, b]) ∧ DispatchesFlushed (old ++ [d, b]) := by
  have hlast : writeReadBarrierAt (old ++ [d, b]) (old.length + 1) = true := by
    rw [writeReadBarrierAt_append_right]; simpa [writeReadBarrierAt] using hb
  have hnolast : dispatchAt (old ++ [d, b]) (old.length + 1) = false := by
    rw [dispatchAt_append_right]; simpa [dispatchAt] using hbd
  constructor
  · intro j hj i hij hdisp
    simp only [List.length_append, List.length_cons, List.length_nil] at hj
    by_cases hjn : j < old.length
    · rw [dispatchAt_append_left _ _ i (by omega), dispatchAt_append_left _ _ j hjn] at hdisp
      obtain ⟨k, hk, hik, hbar⟩ := hsep j hjn i hij hdisp
      exact ⟨k, hk, hik, by rw [writeReadBarrierAt_append_left _ _ k (by omega)]; exact hbar⟩
    · by_cases hjn2 : j = old.length
      · subst hjn2
        rw [dispatchAt_append_left _ _ i hij] at hdisp
        obtain ⟨k, hk, hik, hbar⟩ := hfl i hij hdisp.1
        exact ⟨k, hk, hik, by rw [writeReadBarrierAt_append_left _ _ k hk]; exact hbar⟩
      · have hj2 : j = old.length + 1 := by omega
        subst hj2
        rw [hnolast] at hdisp
        exact absurd hdisp.2 (by decide)
  · intro i hi hdisp
    simp only [List.length_append, List.length_cons, List.length_nil] at hi
    refine ⟨old.length + 1, by simp, ?_, hlast⟩
    by_contra hc
    have hi2 : i = old.length + 1 := by omega
    subst hi2
    rw [hnolast] at hdisp
    exact absurd hdisp (by decide)

/-- C1 (amended): for every pass, command buffer and prior state, the commands that
`recordCommands` records contain exactly one dispatch, that of the single stage
`RADIX_SORT` (not one dispatch for each of histogram, scan and scatter), and everything
it records goes to the end of the one command buffer it is given, every other command
buffer being left as it was. -/
theorem recordCommands_single_dispatch_in_given_buffer (self : SingleRadixSortPass)
    (cb : VkCommandBuffer) (s : VulkanState) :
    dispatchedStages (recordedBy self cb s) = [ComputeStage.RADIX_SORT.toNat] ∧
    (self.recordCommands cb s).recorded cb = s.recorded cb ++ recordedBy self cb s ∧
    ∀ other, other ≠ cb → (self.recordCommands cb s).recorded other = s.recorded other := by
  refine ⟨?_, recorded_recordCommands_eq_append self cb s,
    fun other h => recorded_recordCommands_of_ne self cb other s h⟩
  rw [recordedBy_eq]
  rfl

/-- C1 (counterexample): recording into the empty command buffer 0 of the initial state
yields the dispatch list `[0]`, which has one entry and not three. -/
theorem recordCommands_not_three_dispatches :
    dispatchedStages (recordedBy (SingleRadixSortPass.mk 0) 0 VulkanState.initial) = [0] ∧
    (dispatchedStages (recordedBy (SingleRadixSortPass.mk 0) 0 VulkanState.initial)).length
      ≠ 3 := by
  rw [recordedBy_eq]
  decide

/-- C3 (amended): for every pass, command buffer and prior state, the last command in
the command buffer after `recordCommands` is a pipeline barrier from the compute-shader
stage to the compute-shader stage that carries exactly one global memory barrier, with
source access shader-write and destination access shader-read, and no buffer or image
barrier; the dispatch recorded by the call is right before it and every dispatch of the
command buffer is at an earlier position. A command recorded afterwards is placed right
after that barrier, and the barrier makes the writes of the sort visible to the shader
reads of every compute dispatch recorded afterwards, but not to the reads of a buffer
copy. -/
theorem recordCommands_ends_with_memory_barrier (self : SingleRadixSortPass)
    (cb : VkCommandBuffer) (s : VulkanState) :
    ((self.recordCommands cb s).recorded cb).getLast? =
      some (Command.pipelineBarrier VK_PIPELINE_STAGE_COMPUTE_SHADER_BIT
        VK_PIPELINE_STAGE_COMPUTE_SHADER_BIT 0
        [VkMemoryBarrier.mk VK_STRUCTURE_TYPE_MEMORY_BARRIER 0 VK_ACCESS_SHADER_WRITE_BIT
          VK_ACCESS_SHADER_READ_BIT] [] []) ∧
    dispatchAt ((self.recordCommands cb s).recorded cb)
      (((self.recordCommands cb s).recorded cb).length - 2) = true ∧
    (∀ i, dispatchAt ((self.recordCommands cb s).recorded cb) i = true →
      i + 1 < ((self.recordCommands cb s).recorded cb).length) ∧
    (∀ c, ((self.recordCommands cb s).record cb c).recorded cb =
      s.recorded cb ++ [Command.computeShaderExecution 0,
        Command.pipelineBarrier VK_PIPELINE_STAGE_COMPUTE_SHADER_BIT
          VK_PIPELINE_STAGE_COMPUTE_SHADER_BIT 0
          [VkMemoryBarrier.mk VK_STRUCTURE_TYPE_MEMORY_BARRIER 0 VK_ACCESS_SHADER_WRITE_BIT
            VK_ACCESS_SHADER_READ_BIT] [] [], c]) ∧
    (∀ i, (((self.recordCommands cb s).recorded cb).getLast?.map
      fun b => b.makesWritesVisibleTo (Command.computeShaderExecution i)) = some true) ∧
    ∀ src dst size, (((self.recordCommands cb s).recorded cb).getLast?.map
      fun b => b.makesWritesVisibleTo (Command.copyBuffer src dst size)) = some false := by
  rw [recorded_recordCommands]
  have hlast : (s.recorded cb ++
      [Command.computeShaderExecution 0,
       Command.pipelineBarrier VK_PIPELINE_STAGE_COMPUTE_SHADER_BIT
         VK_PIPELINE_STAGE_COMPUTE_SHADER_BIT 0
         [VkMemoryBarrier.mk VK_STRUCTURE_TYPE_MEMORY_BARRIER 0 VK_ACCESS_SHADER_WRITE_BIT
           VK_ACCESS_SHADER_READ_BIT] [] []]).getLast? =
      some (Command.pipelineBarrier VK_PIPELINE_STAGE_COMPUTE_SHADER_BIT
        VK_PIPELINE_STAGE_COMPUTE_SHADER_BIT 0
        [VkMemoryBarrier.mk VK_STRUCTURE_TYPE_MEMORY_BARRIER 0 VK_ACCESS_SHADER_WRITE_BIT
          VK_ACCESS_SHADER_READ_BIT] [] []) := by simp
  refine ⟨hlast, ?_, ?_, fun c => by simp [VulkanState.record, recorded_recordCommands],
    fun i => by rw [hlast]; rfl, fun _ _ _ => by rw [hlast]; rfl⟩
  · have h := dispatchAt_append_right (s.recorded cb)
      [Command.computeShaderExecution 0,
       Command.pipelineBarrier VK_PIPELINE_STAGE_COMPUTE_SHADER_BIT
         VK_PIPELINE_STAGE_COMPUTE_SHADER_BIT 0
         [VkMemoryBarrier.mk VK_STRUCTURE_TYPE_MEMORY_BARRIER 0 VK_ACCESS_SHADER_WRITE_BIT
           VK_ACCESS_SHADER_READ_BIT] [] []] 0
    simpa [dispatchAt] using h
  · intro i hi
    simp only [List.length_append, List.length_cons, List.length_nil]
    by_contra hc
    have hge : (s.recorded cb).length + 1 ≤ i := by omega
    obtain ⟨t, rfl⟩ : ∃ t, i = (s.recorded cb).length + (1 + t) :=
      ⟨i - (s.recorded cb).length - 1, by omega⟩
    rw [dispatchAt_append_right] at hi
    cases t with
    | zero => simp [dispatchAt, Command.isDispatch] at hi
    | succ t => simp [dispatchAt, Nat.add_comm 1] at hi

/-- C3 (counterexample): a buffer copy recorded into command buffer 0 right after
`recordCommands` reads in the transfer stage with transfer-read access, which the
destination scope of the final barrier (compute-shader stage, shader-read access) does
not hold: the writes of the sort are not made visible to that command. -/
theorem recordCommands_barrier_not_visible_to_copy :
    (((SingleRadixSortPass.mk 0).recordCommands 0 VulkanState.initial).record 0
      (Command.copyBuffer 0 1 24)).recorded 0
      = [Command.computeShaderExecution 0,
         Command.pipelineBarrier VK_PIPELINE_STAGE_COMPUTE_SHADER_BIT
           VK_PIPELINE_STAGE_COMPUTE_SHADER_BIT 0
           [VkMemoryBarrier.mk VK_STRUCTURE_TYPE_MEMORY_BARRIER 0
             VK_ACCESS_SHADER_WRITE_BIT VK_ACCESS_SHADER_READ_BIT] [] [],
         Command.copyBuffer 0 1 24] ∧
    ((((SingleRadixSortPass.mk 0).recordCommands 0 VulkanState.initial).recorded 0).getLast?.map
      fun b => b.makesWritesVisibleTo (Command.copyBuffer 0 1 24)) = some false := by
  decide

/-- C4 (amended): for every pass, command buffer and prior state, the destination scope
of the final barrier recorded by `recordCommands` is exactly the compute-shader stage
with shader-read access: it reaches shader reads of further compute work, and reaches
neither a stage of rendering work nor reads of the host. -/
theorem recordCommands_final_barrier_scope (self : SingleRadixSortPass)
    (cb : VkCommandBuffer) (s : VulkanState) :
    finalBarrierDst ((self.recordCommands cb s).recorded cb) =
      some (VK_PIPELINE_STAGE_COMPUTE_SHADER_BIT, VK_ACCESS_SHADER_READ_BIT) ∧
    coversCompute VK_PIPELINE_STAGE_COMPUTE_SHADER_BIT VK_ACCESS_SHADER_READ_BIT = true ∧
    coversRendering VK_PIPELINE_STAGE_COMPUTE_SHADER_BIT = false ∧
    coversHostReadback VK_PIPELINE_STAGE_COMPUTE_SHADER_BIT VK_ACCESS_SHADER_READ_BIT
      = false := by
  refine ⟨?_, by decide, by decide, by decide⟩
  rw [recorded_recordCommands]
  simp [finalBarrierDst]

/-- C4 (counterexample): the final barrier recorded into the empty command buffer 0 has
destination stage mask 0x800 and destination access mask 0x20; the host stage bit
0x4000, the host-read bit 0x2000 and every graphics stage bit are absent from them. -/
theorem recordCommands_final_barrier_misses_host_and_rendering :
    finalBarrierDst (((SingleRadixSortPass.mk 0).recordCommands 0 VulkanState.initial).recorded 0)
      = some (0x800, 0x20) ∧
    hasBits 0x800 VK_PIPELINE_STAGE_HOST_BIT = false ∧
    hasBits 0x20 VK_ACCESS_HOST_READ_BIT = false ∧
    coversRendering 0x800 = false ∧ coversHostReadback 0x800 0x20 = false := by
  decide

/-- C6: for every pass, command buffer and prior state, `recordCommands` records exactly
one compute dispatch, and that dispatch is of stage `RADIX_SORT`, whose index is 0. -/
theorem recordCommands_exactly_one_dispatch (self : SingleRadixSortPass)
    (cb : VkCommandBuffer) (s : VulkanState) :
    (recordedBy self cb s).countP Command.isDispatch = 1 ∧
    (∀ c ∈ recordedBy self cb s, c.isDispatch = true →
      c = Command.computeShaderExecution ComputeStage.RADIX_SORT.toNat) ∧
    ComputeStage.RADIX_SORT.toNat = 0 := by
  rw [recordedBy_eq]
  refine ⟨by decide, ?_, rfl⟩
  intro c hc hdisp
  simp only [List.mem_cons, List.mem_singleton, List.mem_nil_iff, or_false] at hc
  rcases hc with rfl | rfl
  · rfl
  · simp [Command.isDispatch] at hdisp

/-- C7: for every pass, command buffer and prior state, every command `recordCommands`
records is a compute dispatch or a pipeline barrier (no event command), the commands are
appended to the command buffer it is given while every other command buffer stays as it
was, and the host calls (queue submissions, fence operations, waits) stay as they
were. -/
theorem recordCommands_frame (self : SingleRadixSortPass) (cb : VkCommandBuffer)
    (s : VulkanState) :
    (∀ c ∈ recordedBy self cb s, c.isDispatch = true ∨ c.isPipelineBarrier = true) ∧
    (self.recordCommands cb s).recorded cb = s.recorded cb ++ recordedBy self cb s ∧
    (∀ other, other ≠ cb → (self.recordCommands cb s).recorded other = s.recorded other) ∧
    (self.recordCommands cb s).hostCalls = s.hostCalls := by
  refine ⟨?_, recorded_recordCommands_eq_append self cb s,
    fun other h => recorded_recordCommands_of_ne self cb other s h,
    hostCalls_recordCommands self cb s⟩
  rw [recordedBy_eq]
  intro c hc
  simp only [List.mem_cons, List.mem_singleton, List.mem_nil_iff, or_false] at hc
  rcases hc with rfl | rfl
  · exact Or.inl rfl
  · exact Or.inr rfl

/-- C9: every stage index dispatched by `recordCommands` is `RADIX_SORT = 0`, the shader
list returned by `createShaders` has length 1, and so the index is a valid position of
that list. -/
theorem dispatched_stage_is_valid_shader_index (self : SingleRadixSortPass)
    (resourceDirectoryPath : String) (cb : VkCommandBuffer) (s : VulkanState) (i : Nat)
    (hi : i ∈ dispatchedStages (recordedBy self cb s)) :
    i = ComputeStage.RADIX_SORT.toNat ∧
    (self.createShaders resourceDirectoryPath).length = 1 ∧
    i < (self.createShaders resourceDirectoryPath).length := by
  rw [recordedBy_eq] at hi
  have h0 : i = 0 := by simpa [dispatchedStages] using hi
  subst h0
  exact ⟨rfl, rfl, by simp [SingleRadixSortPass.createShaders]⟩

/-- C9 (witness): stage 0 is dispatched when recording into the empty command buffer 0,
and 0 is a valid position of the shader list created for the directory "res". -/
theorem dispatched_stage_is_valid_shader_index_witness :
    0 ∈ dispatchedStages (recordedBy (SingleRadixSortPass.mk 7) 0 VulkanState.initial) ∧
    (0 = ComputeStage.RADIX_SORT.toNat ∧
    ((SingleRadixSortPass.mk 7).createShaders "res").length = 1 ∧
    0 < ((SingleRadixSortPass.mk 7).createShaders "res").length) :=
  ⟨by rw [recordedBy_eq]; decide,
    dispatched_stage_is_valid_shader_index (SingleRadixSortPass.mk 7) "res" 0
      VulkanState.initial 0 (by rw [recordedBy_eq]; decide)⟩

/-- C10: for every pass and every resource directory path, `createShaders` returns a
list of exactly one shader, built on the GPU context of the pass, whose directory is
the path followed by "/shaders" and whose file name is "single_radixsort.comp". -/
theorem createShaders_eq (self : SingleRadixSortPass) (resourceDirectoryPath : String) :
    self.createShaders resourceDirectoryPath =
      [Shader.mk self.m_gpuContext (resourceDirectoryPath ++ "/shaders")
        "single_radixsort.comp"] ∧
    (self.createShaders resourceDirectoryPath).length = 1 :=
  ⟨rfl, rfl⟩

/-! ## Theorems about the sorting kernel -/

theorem countP_range_eq_card (N : Nat) (p : Nat → Bool) :
    (List.range N).countP p = ((Finset.range N).filter (fun i => p i = true)).card := by
  rw [List.countP_eq_length_filter]
  simp [Finset.card, Finset.filter, Finset.range, Multiset.range]

theorem length_exclusiveScanFrom (l : List Nat) (acc : Nat) :
    (exclusiveScanFrom acc l).length = l.length := by
  induction l generalizing acc with
  | nil => rfl
  | cons x xs ih => simp [exclusiveScanFrom, ih]

theorem getD_exclusiveScanFrom (l : List Nat) (acc c : Nat) (hc : c < l.length) :
    (exclusiveScanFrom acc l).getD c 0 = acc + (l.take c).sum := by
  induction l generalizing acc c with
  | nil => simp at hc
  | cons x xs ih =>
    cases c with
    | zero => simp [exclusiveScanFrom]
    | succ c =>
      have hc2 : c < xs.length := by simpa using hc
      have := ih (acc + x) c hc2
      simp only [List.getD_eq_getElem?_getD] at this
      simp [exclusiveScanFrom, this, Nat.add_assoc]

theorem sum_map_range (f : Nat → Nat) (n : Nat) :
    ((List.range n).map f).sum = ∑ c in Finset.range n, f c := by
  induction n with
  | zero => rfl
  | succ n ih => simp [List.range_succ, Finset.sum_range_succ, ih]

theorem sum_range_mul_add (F : Nat → Nat → Nat) (G b g : Nat) (hg : g < G) :
    ∑ c in Finset.range (b * G + g), F (c % G) (c / G)
      = ∑ b2 in Finset.range b, ∑ g2 in Finset.range G, F g2 b2
        + ∑ g2 in Finset.range g, F g2 b := by
  have hG : 0 < G := by omega
  rw [Finset.sum_range_add]
  congr 1
  · induction b with
    | zero => simp
    | succ b ih =>
      rw [Nat.succ_mul, Finset.sum_range_add, ih, Finset.sum_range_succ]
      congr 1
      apply Finset.sum_congr rfl
      intro x hx
      have hx2 : x < G := Finset.mem_range.mp hx
      rw [Nat.mul_comm b G, Nat.mul_add_mod, Nat.mod_eq_of_lt hx2, Nat.mul_add_div hG,
        Nat.div_eq_of_lt hx2, Nat.add_zero]
  · apply Finset.sum_congr rfl
    intro x hx
    have hx2 : x < G := by have := Finset.mem_range.mp hx; omega
    rw [Nat.mul_comm b G, Nat.mul_add_mod, Nat.mod_eq_of_lt hx2, Nat.mul_add_div hG,
      Nat.div_eq_of_lt hx2, Nat.add_zero]

theorem sum_card_fiber (s : Finset Nat) (f : Nat → Nat) (n : Nat) (h : ∀ x ∈ s, f x < n) :
    ∑ a in Finset.range n, (s.filter fun x => f x = a).card = s.card := by
  symm
  exact Finset.card_eq_sum_card_fiberwise (fun x hx => Finset.mem_range.mpr (h x hx))

theorem card_before_split (N G i : Nat) (d w : Nat → Nat) (hi : i < N)
    (hw : ∀ j, j < N → w j < G) (hmono : ∀ j k, j ≤ k → w j ≤ w k) :
    (∑ b2 in Finset.range (d i), ∑ g2 in Finset.range G,
        ((Finset.range N).filter fun j => w j = g2 ∧ d j = b2).card)
      + (∑ g2 in Finset.range (w i),
        ((Finset.range N).filter fun j => w j = g2 ∧ d j = d i).card)
      + ((Finset.range i).filter fun j => w j = w i ∧ d j = d i).card
      = (before N d i).card := by
  -- all buckets below `d i`
  have h1 : (∑ b2 in Finset.range (d i), ∑ g2 in Finset.range G,
        ((Finset.range N).filter fun j => w j = g2 ∧ d j = b2).card)
      = ((Finset.range N).filter fun j => d j < d i).card := by
    rw [← sum_card_fiber ((Finset.range N).filter fun j => d j < d i) d (d i)
      (fun x hx => (Finset.mem_filter.mp hx).2)]
    apply Finset.sum_congr rfl
    intro b2 hb2
    have hb : b2 < d i := Finset.mem_range.mp hb2
    rw [Finset.filter_filter]
    have : ((Finset.range N).filter fun j => d j < d i ∧ d j = b2)
        = (Finset.range N).filter fun j => d j = b2 := by
      apply Finset.filter_congr
      intro x _
      constructor
      · exact fun h => h.2
      · exact fun h => ⟨by omega, h⟩
    rw [this, ← sum_card_fiber ((Finset.range N).filter fun j => d j = b2) w G
      (fun x hx => hw x (Finset.mem_range.mp (Finset.mem_filter.mp hx).1))]
    apply Finset.sum_congr rfl
    intro g2 _
    rw [Finset.filter_filter]
    congr 1
    apply Finset.filter_congr
    intro x _
    exact and_comm
  -- bucket `d i` in the workgroups below `w i`
  have h2 : (∑ g2 in Finset.range (w i),
        ((Finset.range N).filter fun j => w j = g2 ∧ d j = d i).card)
      = ((Finset.range N).filter fun j => w j < w i ∧ d j = d i).card := by
    rw [← sum_card_fiber ((Finset.range N).filter fun j => w j < w i ∧ d j = d i) w (w i)
      (fun x hx => (Finset.mem_filter.mp hx).2.1)]
    apply Finset.sum_congr rfl
    intro g2 hg2
    have hg : g2 < w i := Finset.mem_range.mp hg2
    rw [Finset.filter_filter]
    congr 1
    apply Finset.filter_congr
    intro x _
    constructor
    · rintro ⟨h, h'⟩
      exact ⟨⟨by omega, h'⟩, h⟩
    · rintro ⟨⟨_, h'⟩, h⟩
      exact ⟨h, h'⟩
  -- bucket `d i`, all elements before `i`
  have h3 : ((Finset.range N).filter fun j => w j < w i ∧ d j = d i).card
      + ((Finset.range i).filter fun j => w j = w i ∧ d j = d i).card
      = ((Finset.range N).filter fun j => d j = d i ∧ j < i).card := by
    rw [← Finset.filter_card_add_filter_neg_card_eq_card (fun j => w j < w i)
      (s := (Finset.range N).filter fun j => d j = d i ∧ j < i)]
    congr 1
    · rw [Finset.filter_filter]
      congr 1
      apply Finset.filter_congr
      intro x _
      constructor
      · rintro ⟨h, h'⟩
        refine ⟨⟨h', ?_⟩, h⟩
        by_contra hc
        have := hmono i x (by omega)
        omega
      · rintro ⟨⟨h', _⟩, h⟩
        exact ⟨h, h'⟩
    · rw [Finset.filter_filter]
      congr 1
      ext x
      simp only [Finset.mem_filter, Finset.mem_range]
      constructor
      · rintro ⟨hx, h, h'⟩
        exact ⟨by omega, ⟨h', hx⟩, by omega⟩
      · rintro ⟨_, ⟨h', hx⟩, h⟩
        have := hmono x i (by omega)
        exact ⟨hx, by omega, h'⟩
  -- the two parts of `before`
  have h4 : ((Finset.range N).filter fun j => d j < d i).card
      + ((Finset.range N).filter fun j => d j = d i ∧ j < i).card = (before N d i).card := by
    unfold before
    rw [← Finset.filter_card_add_filter_neg_card_eq_card (fun j => d j < d i)
      (s := (Finset.range N).filter fun k => d k < d i ∨ (d k = d i ∧ k < i))]
    congr 1
    · rw [Finset.filter_filter]
      congr 1
      apply Finset.filter_congr
      intro x _
      constructor
      · exact fun h => ⟨Or.inl h, h⟩
      · exact fun h => h.2
    · rw [Finset.filter_filter]
      congr 1
      apply Finset.filter_congr
      intro x _
      constructor
      · rintro ⟨h, h'⟩
        exact ⟨Or.inr ⟨h, h'⟩, by omega⟩
      · rintro ⟨h | h, h'⟩
        · omega
        · exact h
  rw [h1, h2, Nat.add_assoc, h3, h4]

theorem before_ssubset (N : Nat) (d : Nat → Nat) (i j : Nat) (hi : i < N)
    (hlt : d i < d j ∨ (d i = d j ∧ i < j)) : before N d i ⊂ before N d j := by
  rw [Finset.ssubset_iff_of_subset]
  · refine ⟨i, ?_, ?_⟩
    · simp only [before, Finset.mem_filter, Finset.mem_range]
      exact ⟨hi, hlt⟩
    · simp [before]
  · intro k
    simp only [before, Finset.mem_filter, Finset.mem_range]
    rintro ⟨hk, h⟩
    refine ⟨hk, ?_⟩
    omega

theorem card_before_lt (N : Nat) (d : Nat → Nat) (i : Nat) (hi : i < N) :
    (before N d i).card < N := by
  have hsub : before N d i ⊂ Finset.range N := by
    unfold before
    rw [Finset.ssubset_iff_of_subset (Finset.filter_subset _ _)]
    exact ⟨i, Finset.mem_range.mpr hi, by simp⟩
  simpa using Finset.card_lt_card hsub

theorem card_before_lt_card_before (N : Nat) (d : Nat → Nat) (i j : Nat) (hi : i < N)
    (hlt : d i < d j ∨ (d i = d j ∧ i < j)) : (before N d i).card < (before N d j).card :=
  Finset.card_lt_card (before_ssubset N d i j hi hlt)

theorem digit_lt_bucketCount (cfg : PassConfiguration) (key : Nat) :
    digit cfg key < cfg.bucketCount := by
  unfold digit PassConfiguration.bucketCount
  rw [Nat.and_pow_two_sub_one_eq_mod]
  exact Nat.mod_lt _ (Nat.pos_pow_of_pos _ (by decide))

theorem le_workgroupCount_mul_groupSize (cfg : PassConfiguration) (n : Nat)
    (hG : 0 < cfg.workgroupCount) : n ≤ cfg.workgroupCount * groupSize cfg n := by
  unfold groupSize
  have h1 := Nat.div_add_mod (n + cfg.workgroupCount - 1) cfg.workgroupCount
  have h2 := Nat.mod_lt (n + cfg.workgroupCount - 1) hG
  omega

theorem workgroupOf_lt (cfg : PassConfiguration) (n i : Nat) (hG : 0 < cfg.workgroupCount)
    (hi : i < n) : workgroupOf cfg n i < cfg.workgroupCount := by
  unfold workgroupOf
  apply Nat.div_lt_of_lt_mul
  have := le_workgroupCount_mul_groupSize cfg n hG
  rw [Nat.mul_comm] at this
  omega

theorem workgroupOf_mono (cfg : PassConfiguration) (n j k : Nat) (h : j ≤ k) :
    workgroupOf cfg n j ≤ workgroupOf cfg n k :=
  Nat.div_le_div_right h

theorem histogram_eq_card (cfg : PassConfiguration) (input : List Nat) (g b : Nat) :
    histogram cfg input g b = ((Finset.range input.length).filter fun j =>
      workgroupOf cfg input.length j = g ∧ digit cfg (input.getD j 0) = b).card := by
  unfold histogram
  rw [countP_range_eq_card]
  congr 1
  apply Finset.filter_congr
  intro x _
  simp

theorem localRank_eq_card (cfg : PassConfiguration) (input : List Nat) (i : Nat) :
    localRank cfg input i = ((Finset.range i).filter fun j =>
      workgroupOf cfg input.length j = workgroupOf cfg input.length i ∧
        digit cfg (input.getD j 0) = digit cfg (input.getD i 0)).card := by
  unfold localRank
  rw [countP_range_eq_card]
  congr 1
  apply Finset.filter_congr
  intro x _
  simp

/-- The scatter destination of an element is the number of elements a stable sort by
digit places before it. -/
theorem destination_eq_card_before (cfg : PassConfiguration) (input : List Nat) (i : Nat)
    (hG : 0 < cfg.workgroupCount) (hi : i < input.length) :
    destination cfg input i
      = (before input.length (fun k => digit cfg (input.getD k 0)) i).card := by
  have hg := workgroupOf_lt cfg input.length i hG hi
  have hb := digit_lt_bucketCount cfg (input.getD i 0)
  have hc : digit cfg (input.getD i 0) * cfg.workgroupCount + workgroupOf cfg input.length i
      < cfg.bucketCount * cfg.workgroupCount := by
    calc digit cfg (input.getD i 0) * cfg.workgroupCount + workgroupOf cfg input.length i
        < digit cfg (input.getD i 0) * cfg.workgroupCount + cfg.workgroupCount := by omega
      _ = (digit cfg (input.getD i 0) + 1) * cfg.workgroupCount := by rw [Nat.succ_mul]
      _ ≤ cfg.bucketCount * cfg.workgroupCount := Nat.mul_le_mul_right _ hb
  unfold destination scannedOffsetTable
  rw [getD_exclusiveScanFrom _ _ _ (by simpa [histogramTable] using hc)]
  unfold histogramTable
  rw [← List.map_take, List.take_range, Nat.min_eq_left (Nat.le_of_lt hc), sum_map_range,
    sum_range_mul_add (fun g b => histogram cfg input g b) _ _ _ hg, Nat.zero_add,
    localRank_eq_card]
  simp only [histogram_eq_card]
  exact card_before_split input.length cfg.workgroupCount i
    (fun k => digit cfg (input.getD k 0)) (workgroupOf cfg input.length) hi
    (fun j hj => workgroupOf_lt cfg input.length j hG hj)
    (fun j k h => workgroupOf_mono cfg input.length j k h)

theorem length_foldl_set (dest val : Nat → Nat) (l : List Nat) (out : List Nat) :
    (l.foldl (fun o i => o.set (dest i) (val i)) out).length = out.length := by
  induction l generalizing out with
  | nil => rfl
  | cons x xs ih => simp [List.foldl, ih]

/-- Writing `val i` to position `dest i` for every `i < n`, with pairwise different
positions inside the buffer, leaves `val i` at position `dest i`. -/
theorem getElem?_foldl_set (dest val : Nat → Nat) (out : List Nat) (n : Nat)
    (hinj : ∀ i j, i < n → j < n → dest i = dest j → i = j)
    (hlt : ∀ i, i < n → dest i < out.length) (m : Nat) (hm : m ≤ n) :
    ∀ i, i < m →
      ((List.range m).foldl (fun o i => o.set (dest i) (val i)) out)[dest i]? = some (val i) := by
  induction m with
  | zero => intro i hi; omega
  | succ m ih =>
    intro i hi
    rw [List.range_succ, List.foldl_append]
    simp only [List.foldl]
    by_cases him : i = m
    · subst him
      rw [List.getElem?_set_self]
      rw [length_foldl_set]
      exact hlt i (by omega)
    · have hne : dest m ≠ dest i := fun h => him (hinj m i (by omega) (by omega) h).symm
      rw [List.getElem?_set_ne hne]
      exact ih (by omega) i (by omega)

theorem destination_lt (cfg : PassConfiguration) (input : List Nat) (i : Nat)
    (hG : 0 < cfg.workgroupCount) (hi : i < input.length) :
    destination cfg input i < input.length := by
  rw [destination_eq_card_before cfg input i hG hi]
  exact card_before_lt _ _ i hi

theorem destination_lt_destination (cfg : PassConfiguration) (input : List Nat) (i j : Nat)
    (hG : 0 < cfg.workgroupCount) (hi : i < input.length) (hj : j < input.length)
    (hlt : digit cfg (input.getD i 0) < digit cfg (input.getD j 0) ∨
      (digit cfg (input.getD i 0) = digit cfg (input.getD j 0) ∧ i < j)) :
    destination cfg input i < destination cfg input j := by
  rw [destination_eq_card_before cfg input i hG hi, destination_eq_card_before cfg input j hG hj]
  exact card_before_lt_card_before _ _ i j hi hlt

theorem destination_injective (cfg : PassConfiguration) (input : List Nat) (i j : Nat)
    (hG : 0 < cfg.workgroupCount) (hi : i < input.length) (hj : j < input.length)
    (h : destination cfg input i = destination cfg input j) : i = j := by
  by_contra hne
  have h1 := destination_lt_destination cfg input i j hG hi hj
  have h2 := destination_lt_destination cfg input j i hG hj hi
  by_cases hd : digit cfg (input.getD i 0) < digit cfg (input.getD j 0)
  · have := h1 (Or.inl hd); omega
  · by_cases hd2 : digit cfg (input.getD j 0) < digit cfg (input.getD i 0)
    · have := h2 (Or.inl hd2); omega
    · have hde : digit cfg (input.getD i 0) = digit cfg (input.getD j 0) := by omega
      by_cases hij : i < j
      · have := h1 (Or.inr ⟨hde, hij⟩); omega
      · have := h2 (Or.inr ⟨hde.symm, by omega⟩); omega

theorem length_scatter (cfg : PassConfiguration) (input output : List Nat) :
    (scatter cfg input output).length = output.length :=
  length_foldl_set _ _ _ _

theorem getElem?_scatter_destination (cfg : PassConfiguration) (input output : List Nat)
    (hG : 0 < cfg.workgroupCount) (hlen : output.length = input.length) (i : Nat)
    (hi : i < input.length) :
    (scatter cfg input output)[destination cfg input i]? = some (input.getD i 0) :=
  getElem?_foldl_set (destination cfg input) (fun i => input.getD i 0) output input.length
    (fun i j hi hj h => destination_injective cfg input i j hG hi hj h)
    (fun i hi => by rw [hlen]; exact destination_lt cfg input i hG hi)
    input.length (Nat.le_refl _) i hi

/-- Every position of the output is the destination of some input element. -/
theorem exists_destination_eq (cfg : PassConfiguration) (input : List Nat)
    (hG : 0 < cfg.workgroupCount) (p : Nat) (hp : p < input.length) :
    ∃ i, i < input.length ∧ destination cfg input i = p := by
  let f : Fin input.length → Fin input.length :=
    fun i => ⟨destination cfg input i, destination_lt cfg input i hG i.2⟩
  have hinj : Function.Injective f := by
    intro a b hab
    apply Fin.ext
    exact destination_injective cfg input a b hG a.2 b.2 (congrArg Fin.val hab)
  have hsurj : Function.Surjective f := Finite.injective_iff_surjective.mp hinj
  obtain ⟨i, hi⟩ := hsurj ⟨p, hp⟩
  exact ⟨i, i.2, congrArg Fin.val hi⟩

theorem scatter_perm (cfg : PassConfiguration) (input output : List Nat)
    (hG : 0 < cfg.workgroupCount) (hlen : output.length = input.length) :
    (scatter cfg input output).Perm input := by
  have hout : (scatter cfg input output).length = input.length := by
    rw [length_scatter, hlen]
  let f : Fin input.length → Fin input.length :=
    fun i => ⟨destination cfg input i, destination_lt cfg input i hG i.2⟩
  have hinj : Function.Injective f := by
    intro a b hab
    apply Fin.ext
    exact destination_injective cfg input a b hG a.2 b.2 (congrArg Fin.val hab)
  let e : Equiv.Perm (Fin input.length) :=
    Equiv.ofBijective f ⟨hinj, Finite.injective_iff_surjective.mp hinj⟩
  let g : Fin input.length → Nat := fun p => (scatter cfg input output).getD p 0
  have h1 : List.ofFn g = scatter cfg input output := by
    apply List.ext_getElem (by simp [hout])
    intro n hn1 hn2
    simp [g, List.getElem?_eq_getElem hn2]
  have h2 : List.ofFn (g ∘ e) = input := by
    apply List.ext_getElem (by simp)
    intro n hn1 hn2
    have := getElem?_scatter_destination cfg input output hG hlen n hn2
    simp [g, e, f, this, List.getElem?_eq_getElem hn2]
  have h3 := e.ofFn_comp_perm g
  rw [h1, h2] at h3
  exact h3.symm

theorem scatter_pairwise (cfg : PassConfiguration) (input output : List Nat)
    (hG : 0 < cfg.workgroupCount) (hlen : output.length = input.length) :
    (scatter cfg input output).Pairwise (fun a b => digit cfg a ≤ digit cfg b) := by
  have hout : (scatter cfg input output).length = input.length := by
    rw [length_scatter, hlen]
  rw [List.pairwise_iff_getElem]
  intro p q hp hq hpq
  obtain ⟨i, hi, hip⟩ := exists_destination_eq cfg input hG p (by omega)
  obtain ⟨j, hj, hjq⟩ := exists_destination_eq cfg input hG q (by omega)
  have h1 := getElem?_scatter_destination cfg input output hG hlen i hi
  have h2 := getElem?_scatter_destination cfg input output hG hlen j hj
  rw [hip, List.getElem?_eq_getElem hp] at h1
  rw [hjq, List.getElem?_eq_getElem hq] at h2
  rw [Option.some.inj h1, Option.some.inj h2]
  by_contra hc
  have := destination_lt_destination cfg input j i hG hj hi (Or.inl (by omega))
  omega

/-- C8: for every configuration with at least one workgroup, every input sequence and
every output buffer of the same length, the output of the sorting kernel is sorted
ascending by the extracted digit and is a permutation of the input. The statement holds
for every length, hence for every length within the capacity bound. -/
theorem scatter_sorted_and_perm (cfg : PassConfiguration) (input output : List Nat)
    (hG : 0 < cfg.workgroupCount) (hlen : output.length = input.length) :
    (scatter cfg input output).Pairwise (fun a b => digit cfg a ≤ digit cfg b) ∧
    (scatter cfg input output).Perm input :=
  ⟨scatter_pairwise cfg input output hG hlen, scatter_perm cfg input output hG hlen⟩

/-- C8 (witness): keys [5,3,5,1,2,3] with the digit equal to the value (offset 0, width
3) and one workgroup give [1,2,3,3,5,5]. -/
theorem scatter_sorted_and_perm_witness :
    scatter (PassConfiguration.mk 0 3 1) [5, 3, 5, 1, 2, 3] [0, 0, 0, 0, 0, 0]
      = [1, 2, 3, 3, 5, 5] ∧
    ((scatter (PassConfiguration.mk 0 3 1) [5, 3, 5, 1, 2, 3] [0, 0, 0, 0, 0, 0]).Pairwise
      (fun a b => digit (PassConfiguration.mk 0 3 1) a ≤ digit (PassConfiguration.mk 0 3 1) b) ∧
    (scatter (PassConfiguration.mk 0 3 1) [5, 3, 5, 1, 2, 3] [0, 0, 0, 0, 0, 0]).Perm
      [5, 3, 5, 1, 2, 3]) :=
  ⟨by decide,
    scatter_sorted_and_perm (PassConfiguration.mk 0 3 1) [5, 3, 5, 1, 2, 3]
      [0, 0, 0, 0, 0, 0] (by decide) (by decide)⟩

end engine
